import Mathlib

/-!
Verification of the `j` journal tool (src/j.py) against its specification.

The Python source is shallowly embedded: strings are modelled through their
character lists, `datetime` values are modelled as an absolute count of
seconds on the proleptic Gregorian calendar (an `Int`), exceptions are
modelled with `Except`, and each Python function of interest is translated
into an executable Lean definition.
-/

set_option maxRecDepth 4000

/-! ## Character and string utilities (models of Python str primitives) -/

/-- Characters treated as whitespace by Python `str.strip` / `str.split()`
(ASCII subset; the entry format only ever produces these). -/
def isPySpace (c : Char) : Bool :=
  c == ' ' || c == '\t' || c == '\n' || c == '\r' || c == '\x0b' || c == '\x0c'

/-- Build a `String` back from a character list. -/
def ofChars (l : List Char) : String := ⟨l⟩

/-- Drop whitespace from the right end of a character list. -/
def rstripChars (l : List Char) : List Char :=
  ((l.reverse.dropWhile isPySpace).reverse)

/-- Model of Python `str.strip()`: drop whitespace from both ends. -/
def stripChars (l : List Char) : List Char :=
  rstripChars (l.dropWhile isPySpace)

/-- Model of Python `str.split(sep)` for a one-character separator:
split at every occurrence, keeping empty pieces. Never returns `[]`. -/
def splitOnChar (sep : Char) : List Char → List (List Char)
  | [] => [[]]
  | c :: cs =>
    if c = sep then [] :: splitOnChar sep cs
    else
      match splitOnChar sep cs with
      | t :: ts => (c :: t) :: ts
      | [] => [[c]]

/-- Worker for `splitWS`, accumulating the current (reversed) word. -/
def splitWSGo (cur : List Char) : List Char → List (List Char)
  | [] => if cur = [] then [] else [cur.reverse]
  | c :: cs =>
    if isPySpace c then
      if cur = [] then splitWSGo [] cs else cur.reverse :: splitWSGo [] cs
    else splitWSGo (c :: cur) cs

/-- Model of Python `str.split()` with no argument: split on runs of
whitespace, producing no empty words. -/
def splitWS (l : List Char) : List (List Char) := splitWSGo [] l

/-- Worker for `readlinesChars`, accumulating the current (reversed) line. -/
def readlinesGo (cur : List Char) : List Char → List (List Char)
  | [] => if cur = [] then [] else [cur.reverse]
  | c :: cs =>
    if c = '\n' then (cur.reverse ++ ['\n']) :: readlinesGo [] cs
    else readlinesGo (c :: cur) cs

/-- Model of Python `file.readlines()` on the file contents: split into
chunks, each keeping its trailing newline (the final chunk may lack one). -/
def readlinesChars (l : List Char) : List (List Char) := readlinesGo [] l

/-- Worker for `splitlinesChars`. -/
def splitlinesGo (cur : List Char) : List Char → List (List Char)
  | [] => if cur = [] then [] else [cur.reverse]
  | c :: cs =>
    if c = '\n' then cur.reverse :: splitlinesGo [] cs
    else splitlinesGo (c :: cur) cs

/-- Model of Python `str.splitlines()` (restricted to `\n` line boundaries,
the only terminator this text format produces): split into lines, dropping
the terminators; a trailing newline produces no trailing empty line. -/
def splitlinesChars (l : List Char) : List (List Char) := splitlinesGo [] l

/-- String-level `splitlines`. -/
def pySplitlines (s : String) : List String := (splitlinesChars s.data).map ofChars

/-- Join character-list pieces with a separator character between them. -/
def joinSep (c : Char) : List (List Char) → List Char
  | [] => []
  | [x] => x
  | x :: xs => x ++ c :: joinSep c xs

/-- Boolean test that `p` is an initial segment of `l`. -/
def listStartsWith : List Char → List Char → Bool
  | [], _ => true
  | _ :: _, [] => false
  | p :: ps, c :: cs => p == c && listStartsWith ps cs

/-- Boolean substring test (model of Python `in` on strings). -/
def containsSub (needle : List Char) : List Char → Bool
  | [] => listStartsWith needle []
  | c :: cs => listStartsWith needle (c :: cs) || containsSub needle cs

/-- Model of Python `str.lower()` (ASCII case folding; tags and search terms
in this development are ASCII). -/
def lowerChars (l : List Char) : List Char := l.map Char.toLower

/-- Decimal digit characters. -/
def digitList : List Char := ['0', '1', '2', '3', '4', '5', '6', '7', '8', '9']

/-- The decimal digit character for `n % 10`. -/
def digitChar10 (n : Nat) : Char :=
  match n with
  | 0 => '0' | 1 => '1' | 2 => '2' | 3 => '3' | 4 => '4'
  | 5 => '5' | 6 => '6' | 7 => '7' | 8 => '8' | _ => '9'

/-- Worker for `natToChars`: structural recursion on a fuel bound so that
the definition reduces inside the kernel. -/
def natToCharsGo : Nat → Nat → List Char → List Char
  | 0, _, acc => acc
  | fuel + 1, n, acc =>
    if n < 10 then digitChar10 n :: acc
    else natToCharsGo fuel (n / 10) (digitChar10 (n % 10) :: acc)

/-- Decimal digits of `n`, most significant first. -/
def natToChars (n : Nat) : List Char := natToCharsGo (n + 1) n []

/-- Zero-pad a number to two digits (Python `%02d`). -/
def pad2 (n : Nat) : List Char :=
  if n < 10 then '0' :: natToChars n else natToChars n

/-- Zero-pad a number to four digits (Python `%04d`). -/
def pad4 (n : Nat) : List Char :=
  if n < 10 then '0' :: '0' :: '0' :: natToChars n
  else if n < 100 then '0' :: '0' :: natToChars n
  else if n < 1000 then '0' :: natToChars n
  else natToChars n

/-! ## Dates: the model of `datetime.datetime`

A datetime is modelled by its total number of seconds since 0000-03-01 on the
proleptic Gregorian calendar.  `datetime` arithmetic (`- timedelta`) becomes
integer subtraction and comparison becomes integer comparison, exactly the
observable behaviour of the Python objects for second-resolution values. -/

/-- Day count of a Gregorian calendar date, counted from 0000-03-01
(Howard Hinnant's `days_from_civil`, specialised to years `>= 1`). -/
def daysFromCivil (y m d : Nat) : Nat :=
  let y' := if m ≤ 2 then y - 1 else y
  let era := y' / 400
  let yoe := y' % 400
  let mp := (m + 9) % 12
  let doy := (153 * mp + 2) / 5 + (d - 1)
  let doe := yoe * 365 + yoe / 4 - yoe / 100 + doy
  era * 146097 + doe

/-- Seconds since the epoch of a calendar date-time. -/
def toSecs (y m d h mi s : Nat) : Int :=
  (daysFromCivil y m d : Int) * 86400 + h * 3600 + mi * 60 + s

/-- Model of `datetime.min` (0001-01-01 00:00:00). -/
def dtMin : Int := toSecs 1 1 1 0 0 0

/-- Model of `datetime.max` (9999-12-31 23:59:59; Python carries a further
999999 microseconds which are below the resolution of this development). -/
def dtMax : Int := toSecs 9999 12 31 23 59 59

/-- Gregorian leap-year test. -/
def isLeap (y : Nat) : Bool := y % 4 = 0 && (y % 100 ≠ 0 || y % 400 = 0)

/-- Number of days in a month. -/
def daysInMonth (y m : Nat) : Nat :=
  if m = 2 then (if isLeap y then 29 else 28)
  else if m = 4 ∨ m = 6 ∨ m = 9 ∨ m = 11 then 30
  else 31

/-- Calendar date from a day count since 0000-03-01 (Howard Hinnant's
`civil_from_days`). Returns `(year, month, day)`. -/
def civilFromDays (n : Nat) : Nat × Nat × Nat :=
  let era := n / 146097
  let doe := n % 146097
  let yoe := (doe - doe / 1460 + doe / 36524 - doe / 146096) / 365
  let y := yoe + era * 400
  let doy := doe - (365 * yoe + yoe / 4 - yoe / 100)
  let mp := (5 * doy + 2) / 153
  let d := doy - (153 * mp + 2) / 5 + 1
  let m := if mp < 10 then mp + 3 else mp - 9
  (if m ≤ 2 then y + 1 else y, m, d)

/-- Model of Python `str(datetime)`: `YYYY-MM-DD HH:MM:SS` (microseconds are
always zero for parsed entries and are omitted by Python in that case). -/
def strDatetimeChars (t : Int) : List Char :=
  match civilFromDays (t.toNat / 86400) with
  | (y, m, d) =>
    pad4 y ++ ('-' :: (pad2 m ++ ('-' :: (pad2 d ++ (' ' :: (pad2 (t.toNat % 86400 / 3600) ++
      (':' :: (pad2 (t.toNat % 86400 % 3600 / 60) ++
        (':' :: pad2 (t.toNat % 86400 % 60))))))))))

/-! ## The model of `datetime.strptime`

CPython's `_strptime` compiles a format string into a regular expression; the
directives used by `j` correspond to the alternations below, tried in order
with backtracking, and the whole input must be consumed.  A successful match
is then validated by the `datetime` constructor. -/

/-- A format directive: a literal character or one of the numeric fields used
by the formats in `j` (`%Y %m %d %H %M %S`). -/
inductive Dir
  | lit (c : Char)
  | year
  | month
  | day
  | hour
  | minute
  | second
deriving DecidableEq, Repr

/-- Numeric value of a decimal digit character. -/
def digitVal (c : Char) : Nat := c.toNat - 48

/-- Decidable digit test for this development. -/
def isDig (c : Char) : Bool := '0' ≤ c && c ≤ '9'

/-- The candidate matches of one directive at the head of the input, in the
order the compiled regular expression tries its alternatives.  Each candidate
is the matched value paired with the remaining input. -/
def dirCands : Dir → List Char → List (Nat × List Char)
  | .lit ch, l =>
    match l with
    | c :: rest => if c = ch then [(0, rest)] else []
    | [] => []
  | .year, l =>
    -- %Y: exactly four digits
    match l with
    | a :: b :: c :: d :: rest =>
      if isDig a && isDig b && isDig c && isDig d then
        [(digitVal a * 1000 + digitVal b * 100 + digitVal c * 10 + digitVal d, rest)]
      else []
    | _ => []
  | .month, l =>
    -- %m: 1[0-2] | 0[1-9] | [1-9]
    (match l with
     | '1' :: c :: rest => if '0' ≤ c && c ≤ '2' then [(10 + digitVal c, rest)] else []
     | _ => []) ++
    (match l with
     | '0' :: c :: rest => if '1' ≤ c && c ≤ '9' then [(digitVal c, rest)] else []
     | _ => []) ++
    (match l with
     | c :: rest => if '1' ≤ c && c ≤ '9' then [(digitVal c, rest)] else []
     | [] => [])
  | .day, l =>
    -- %d: 3[01] | [12][0-9] | 0[1-9] | [1-9]
    (match l with
     | '3' :: c :: rest => if c = '0' ∨ c = '1' then [(30 + digitVal c, rest)] else []
     | _ => []) ++
    (match l with
     | a :: c :: rest =>
       if (a = '1' ∨ a = '2') && isDig c then [(digitVal a * 10 + digitVal c, rest)] else []
     | _ => []) ++
    (match l with
     | '0' :: c :: rest => if '1' ≤ c && c ≤ '9' then [(digitVal c, rest)] else []
     | _ => []) ++
    (match l with
     | c :: rest => if '1' ≤ c && c ≤ '9' then [(digitVal c, rest)] else []
     | [] => [])
  | .hour, l =>
    -- %H: 2[0-3] | [0-1][0-9] | [0-9]
    (match l with
     | '2' :: c :: rest => if '0' ≤ c && c ≤ '3' then [(20 + digitVal c, rest)] else []
     | _ => []) ++
    (match l with
     | a :: c :: rest =>
       if (a = '0' ∨ a = '1') && isDig c then [(digitVal a * 10 + digitVal c, rest)] else []
     | _ => []) ++
    (match l with
     | c :: rest => if isDig c then [(digitVal c, rest)] else []
     | [] => [])
  | .minute, l =>
    -- %M: [0-5][0-9] | [0-9]
    (match l with
     | a :: c :: rest =>
       if ('0' ≤ a && a ≤ '5') && isDig c then [(digitVal a * 10 + digitVal c, rest)] else []
     | _ => []) ++
    (match l with
     | c :: rest => if isDig c then [(digitVal c, rest)] else []
     | [] => [])
  | .second, l =>
    -- %S: 6[0-1] | [0-5][0-9] | [0-9]  (leap seconds pass the regex but are
    -- rejected by the datetime constructor below)
    (match l with
     | '6' :: c :: rest => if c = '0' ∨ c = '1' then [(60 + digitVal c, rest)] else []
     | _ => []) ++
    (match l with
     | a :: c :: rest =>
       if ('0' ≤ a && a ≤ '5') && isDig c then [(digitVal a * 10 + digitVal c, rest)] else []
     | _ => []) ++
    (match l with
     | c :: rest => if isDig c then [(digitVal c, rest)] else []
     | [] => [])

/-- Backtracking matcher: match the directives against the whole input,
trying each directive's candidates in order.  Returns the matched field
assignments of the first full match. -/
def matchDirs : List Dir → List Char → Option (List (Dir × Nat))
  | [], l => if l = [] then some [] else none
  | d :: ds, l =>
    (dirCands d l).foldr
      (fun c acc =>
        match matchDirs ds c.2 with
        | some vs => some ((d, c.1) :: vs)
        | none => acc)
      none

/-- Value of a field in the match result, with the Python strptime default. -/
def fieldVal (vs : List (Dir × Nat)) (d : Dir) (dflt : Nat) : Nat :=
  match vs.find? (fun p => p.1 = d) with
  | some p => p.2
  | none => dflt

/-- Model of the `datetime` constructor's validation: the field ranges that
make a real date-time (Python raises `ValueError` otherwise). -/
def mkDatetime (y mo da h mi s : Nat) : Option Int :=
  if 1 ≤ y ∧ y ≤ 9999 ∧ 1 ≤ mo ∧ mo ≤ 12 ∧ 1 ≤ da ∧ da ≤ daysInMonth y mo
      ∧ h ≤ 23 ∧ mi ≤ 59 ∧ s ≤ 59 then
    some (toSecs y mo da h mi s)
  else none

/-- Model of `datetime.strptime(input, fmt)` for a directive list `fmt`:
regex match plus constructor validation.  `none` stands for the `ValueError`
Python raises on either failure. -/
def strptime (dirs : List Dir) (l : List Char) : Option Int :=
  match matchDirs dirs l with
  | none => none
  | some vs =>
    mkDatetime (fieldVal vs .year 1900) (fieldVal vs .month 1) (fieldVal vs .day 1)
      (fieldVal vs .hour 0) (fieldVal vs .minute 0) (fieldVal vs .second 0)

/-- The directive list of `TIME_FORMAT = "%Y%m%d_%H%M%S"`. -/
def timeFormatDirs : List Dir :=
  [.year, .month, .day, .lit '_', .hour, .minute, .second]

/-- The directive lists of `TimeFilter.ABS_TIME_FMTS`, in order. -/
def absTimeFmts : List (List Dir) :=
  [[.year],
   [.year, .lit '-', .month],
   [.year, .lit '-', .month, .lit '-', .day],
   [.year, .lit '-', .month, .lit '-', .day, .lit ' ', .hour],
   [.year, .lit '-', .month, .lit '-', .day, .lit ' ', .hour, .lit ':', .minute],
   [.year, .lit '-', .month, .lit '-', .day, .lit ' ', .hour, .lit ':', .minute,
    .lit ':', .second]]

/-- Try the absolute time formats in order, returning the first success
(the `for fmt in ABS_TIME_FMTS` loop). -/
def tryAbsFmts (l : List Char) : Option Int :=
  absTimeFmts.foldr (fun fmt acc => match strptime fmt l with
    | some t => some t
    | none => acc) none

/-! ## TimeFilter (src/j.py lines 205-303) -/

/-- The `TimeFilterException` raised by the time-filter mini-language. -/
inductive TFError
  | timeFilterException (msg : String)
deriving DecidableEq, Repr

/-- Model of Python `int(str)`: optional surrounding whitespace, an optional
sign, then decimal digits (numeric underscores are never produced by the
time mini-language and are not modelled). -/
def pyInt (l : List Char) : Option Int :=
  let digits : List Char → Option Nat := fun ds =>
    if ds ≠ [] ∧ ds.all isDig then
      some (ds.foldl (fun acc c => acc * 10 + digitVal c) 0)
    else none
  match stripChars l with
  | '+' :: ds => (digits ds).map Int.ofNat
  | '-' :: ds => (digits ds).map (fun n => -(Int.ofNat n))
  | ds => (digits ds).map Int.ofNat

/-- Which element of a time filter is being parsed. -/
inductive Which
  | start
  | stop
deriving DecidableEq, Repr

/-- A parsed time filter.  The fields are `Option` because the Python class
stores `None`-able attributes; every construction path in the program fills
both with concrete datetimes. -/
structure TimeFilter where
  start : Option Int
  stop : Option Int
deriving DecidableEq, Repr

/-- Model of `TimeFilter._parse_time_filter_elem`.  `now` is the injectable
time source `TimeFilter.now()`. -/
def parseTimeFilterElem (now : Int) (elem : String) (which : Which) : Except TFError Int :=
  let l := elem.data
  if l = [] then
    .ok (if which = .start then dtMin else dtMax)
  else if 2 ≤ l.length ∧ (l.getLastD ' ') ∈ ['d', 'w', 'm', 'y', 'h', 'M'] then
    match pyInt l.dropLast with
    | none => .error (.timeFilterException "bogus time spec element")
    | some num =>
      let unit := l.getLastD ' '
      let deltaSecs : Int :=
        if unit = 'M' then num * 60
        else if unit = 'h' then num * 3600
        else if unit = 'd' then num * 86400
        else if unit = 'w' then num * 7 * 86400
        else if unit = 'm' then num * 31 * 86400  -- roughly, as in the source
        else num * 365 * 86400  -- 'y', roughly, as in the source
      .ok (now - deltaSecs)
  else
    match tryAbsFmts l with
    | some t => .ok t
    | none => .error (.timeFilterException "bogus time spec element")

/-- Model of `TimeFilter.from_arg`. -/
def TimeFilter.fromArg (now : Int) (arg : String) : Except TFError TimeFilter :=
  match splitOnChar ':' arg.data with
  | [e1] => do
    let start ← parseTimeFilterElem now (ofChars e1) .start
    let stop := dtMax  -- distant future
    if start > stop then
      .error (.timeFilterException "start time is later than stop time")
    else
      .ok ⟨some start, some stop⟩
  | [e1, e2] => do
    let start ← parseTimeFilterElem now (ofChars e1) .start
    let stop ← parseTimeFilterElem now (ofChars e2) .stop
    if start > stop then
      .error (.timeFilterException "start time is later than stop time")
    else
      .ok ⟨some start, some stop⟩
  | _ => .error (.timeFilterException "wrong number of time elements")

/-- Model of `TimeFilter.matches` on an entry timestamp.  The Python body
asserts that `stop` is `None` whenever `start` is (truthiness: a datetime is
always truthy, `None` never is). -/
def TimeFilter.matches (tf : TimeFilter) (now entryTime : Int) : Bool :=
  match tf.start with
  | none => true  -- filter matches anything
  | some start =>
    let stop := match tf.stop with
      | none => now
      | some s => s
    decide (start ≤ entryTime ∧ entryTime ≤ stop)

/-! ## Entry parsing (src/j.py lines 306-428) -/

/-- Errors escaping `Entry.parse`: the program's own `ParseError`, and the
`ValueError` that `datetime.strptime` raises (which `Entry.parse` does not
catch). -/
inductive PError
  | parseError (msg : String)
  | valueError (msg : String)
deriving DecidableEq, Repr

/-- A parsed entry.  `fname` is `os.path.basename(self.path)` (the journal
stores one entry per file); `tags` models the Python set by its membership. -/
structure Entry where
  fname : String
  title : String
  time : Int
  body : Option String
  tags : List String
  immortal : Bool
  wrap : Bool
deriving DecidableEq, Repr

/-- The attribute-line loop of `Entry.parse`: classify each token, first
failure wins.  Returns the accumulated `(tags, immortal, wrap)`. -/
def parseAttrs : List (List Char) → List String × Bool × Bool →
    Except PError (List String × Bool × Bool)
  | [], acc => .ok acc
  | a :: rest, (tags, imm, wr) =>
    match a with
    | '@' :: t => parseAttrs rest (tags ++ [ofChars t], imm, wr)
    | _ =>
      if a = "immortal".data then parseAttrs rest (tags, true, wr)
      else if a = "nowrap".data then parseAttrs rest (tags, imm, false)
      else .error (.parseError ("unknown attribute " ++ ofChars a))

/-- The `ValueError` message of a failed `datetime.strptime` call (Python
includes the offending data; the constant format suffices here since no claim
inspects the text). -/
def strptimeErrMsg : String := "time data does not match format %Y%m%d_%H%M%S"

/-- Model of `Entry.parse`: from the file basename and the file contents to
an `Entry`, or the first error raised. -/
def Entry.parse (fname content : String) (metaOnly : Bool) : Except PError Entry :=
  let tstr := (splitOnChar '-' fname.data).headD []
  match strptime timeFormatDirs tstr with
  | none => .error (.valueError strptimeErrMsg)
  | some time =>
    match readlinesChars content.data with
    | [] => .error (.parseError "unexpected end of file")
    | l1 :: rest =>
      let title := stripChars l1
      if title = [] then .error (.parseError "whitespace title")
      else
        match rest with
        | [] => .ok ⟨fname, ofChars title, time, none, [], false, true⟩
        | l2 :: rest2 =>
          let attrLine := stripChars l2
          if attrLine ≠ [] then do
            let (tags, imm, wr) ← parseAttrs (splitOnChar ' ' attrLine) ([], false, true)
            match rest2 with
            | [] => .ok ⟨fname, ofChars title, time, none, tags, imm, wr⟩
            | l3 :: rest3 =>
              if stripChars l3 ≠ [] then
                .error (.parseError "expected blank line after header")
              else if metaOnly then
                .ok ⟨fname, ofChars title, time, none, tags, imm, wr⟩
              else
                .ok ⟨fname, ofChars title, time, some (ofChars rest3.flatten), tags, imm, wr⟩
          else
            -- blank attr line serves as the body separator
            if metaOnly then .ok ⟨fname, ofChars title, time, none, [], false, true⟩
            else .ok ⟨fname, ofChars title, time, some (ofChars rest2.flatten), [], false, true⟩

/-- Model of `Entry.matches_tag`. -/
def Entry.matchesTag (e : Entry) (tag : String) : Bool := e.tags.contains tag

/-- Model of `Entry.matches_text`; `contents` is the raw file content the
method re-reads from disk. -/
def Entry.matchesText (contents text : String) (caseSensitive : Bool) : Bool :=
  if caseSensitive then containsSub text.data contents.data
  else containsSub (lowerChars text.data) (lowerChars contents.data)

/-- Model of `Entry.matches_ids`. -/
def Entry.matchesIds (e : Entry) (ids : List String) : Bool := ids.contains e.fname

/-! ## Body reflow engine: `format_body` (src/j.py lines 650-724) -/

/-- The `ValueError` that `textwrap.wrap` raises for a non-positive width. -/
inductive WError
  | valueError (msg : String)
deriving DecidableEq, Repr

/-- Greedy fill of whitespace-split words to the given width.  `cur` is the
line being built (empty means none yet). -/
def wrapGreedy (width : Nat) (cur : List Char) : List (List Char) → List (List Char)
  | [] => if cur = [] then [] else [cur]
  | w :: ws =>
    if cur = [] then wrapGreedy width w ws
    else if cur.length + 1 + w.length ≤ width then wrapGreedy width (cur ++ ' ' :: w) ws
    else cur :: wrapGreedy width w ws

/-- Model of `textwrap.wrap(text, width)`: raises `ValueError` for
`width <= 0`, otherwise whitespace-collapsing greedy fill.  (The library's
breaking of single words longer than the width is not modelled; no claim
depends on the wrapped text itself.) -/
def textwrapWrap (text : List Char) (width : Int) : Except WError (List String) :=
  if width ≤ 0 then
    .error (.valueError ("invalid width " ++ toString width ++ " (must be > 0)"))
  else
    .ok ((wrapGreedy width.toNat [] (splitWS text)).map ofChars)

/-- The mutable state of the `format_body` loop: the buffered paragraph
lines, the completed output lines, and the three flags. -/
structure FBState where
  para : List (List Char)
  out : List String
  inTriples : Bool
  inList : Bool
  newlineOnNext : Bool
deriving Repr

/-- Model of the nested `flush_para` function. -/
def flushPara (col : Int) (last : Bool) (st : FBState) : Except WError FBState :=
  if st.para ≠ [] then do
    let wrapped ← textwrapWrap (joinSep '\n' st.para) col
    .ok { para := [], out := st.out ++ wrapped ++ (if last then [] else [""]),
          inTriples := st.inTriples, inList := false, newlineOnNext := false }
  else
    .ok { st with inList := false, newlineOnNext := false }

/-- The `if newline_on_next` prologue of each loop iteration. -/
def fbNl (st : FBState) : FBState :=
  if st.newlineOnNext then { st with out := st.out ++ [""], newlineOnNext := false }
  else st

/-- The dispatch on the current line (the body of the loop after the
`newline_on_next` prologue). -/
def fbDispatch (col : Int) (st : FBState) (line : List Char) : Except WError FBState :=
  if line = "```".data then
    -- verbatim ``` block start/end
    if !st.inTriples then do
      let st ← flushPara col false st
      .ok { st with out := st.out ++ ["/"], inTriples := true }
    else
      .ok { st with out := st.out ++ ["\\"], newlineOnNext := true, inTriples := false }
  else if st.inTriples then
    .ok { st with out := st.out ++ [ofChars ('|' :: ' ' :: line)] }
  else if stripChars line = [] then
    -- an empty line marks the end of a paragraph and a bullet list
    if st.inList then .ok { st with inList := false, newlineOnNext := true }
    else flushPara col false st
  else if listStartsWith "http://".data line || listStartsWith "https://".data line then
    -- lines starting with URLs are preserved
    .ok { st with out := st.out ++ [ofChars line] }
  else
    match splitWS line with
    | [] => .ok st  -- unreachable: a non-blank line has at least one word
    | w :: ws =>
      if w.all (fun ch => ch = '#') then do
        -- a h1/h2/...
        let st ← flushPara col false st
        .ok { st with out := st.out ++
          [ofChars line, ofChars (List.replicate line.length '-'), ""] }
      else if (match line.dropWhile isPySpace with
               | c :: _ => c = '-' || c = '*'
               | [] => false) then
        -- a bullet list item (preserve indent)
        .ok { st with out := st.out ++ [ofChars line], inList := true }
      else if st.inList then
        -- still in a list: pass the line right through
        .ok { st with out := st.out ++ [ofChars line] }
      else
        -- otherwise buffer the line for wrapping
        .ok { st with para := st.para ++ [joinSep ' ' (w :: ws)] }

/-- One iteration of the `for line in input.splitlines()` loop. -/
def fbStep (col : Int) (st : FBState) (line : List Char) : Except WError FBState :=
  fbDispatch col (fbNl st) line

/-- The `format_body` loop over the remaining input lines, ending with the
final `flush_para(True)`. -/
def fbLoop (col : Int) (st : FBState) : List (List Char) → Except WError (List String)
  | [] => do
    let st ← flushPara col true st
    .ok st.out
  | l :: ls => do
    let st ← fbStep col st l
    fbLoop col st ls

/-- Model of `format_body(input, col)`: wrap paragraphs up to column `col`
with the markdown-like rules, or return the raw lines when `col < 0`. -/
def format_body (input : String) (col : Int) : Except WError (List String) :=
  if col < 0 then .ok (pySplitlines input)
  else fbLoop col ⟨[], [], false, false, false⟩ (splitlinesChars input.data)

/-! ## Entry formatting (src/j.py lines 374-403), colours off -/

/-- Model of Python `str.center(width)` including CPython's placement of the
odd padding character. -/
def centerChars (l : List Char) (width : Nat) : List Char :=
  if width ≤ l.length then l
  else
    let marg := width - l.length
    let left := marg / 2 + (if marg % 2 = 1 ∧ width % 2 = 1 then 1 else 0)
    List.replicate left ' ' ++ l ++ List.replicate (marg - left) ' '

/-- The metadata line of a rendered entry: timestamp, padding, identifier. -/
def entryMetaChars (e : Entry) (headerWrap : Nat) : List Char :=
  strDatetimeChars e.time ++
    List.replicate (headerWrap - (strDatetimeChars e.time).length - e.fname.data.length) ' ' ++
    e.fname.data

/-- The header block of `Entry.format`: rule, metadata line, centred title,
and (when tags are present) the centred tag line, joined by newlines. -/
def entryHeaderChars (e : Entry) (headerWrap : Nat) : List Char :=
  joinSep '\n'
    ([List.replicate headerWrap '=', entryMetaChars e headerWrap,
      centerChars e.title.data headerWrap] ++
      (if e.tags ≠ [] then
        [centerChars (joinSep ' ' (e.tags.map (fun t => '@' :: t.data))) headerWrap]
       else []))

/-- Model of `Entry.format(wrap_col)` with no colour scheme configured (every
colour code is the empty string).  A `ValueError` escaping from `format_body`
propagates. -/
def Entry.format (e : Entry) (wrapCol : Int) : Except WError String :=
  match e.body with
  | none => .ok (ofChars (entryHeaderChars e wrapCol.natAbs))
  | some b =>
    if b = "" then .ok (ofChars (entryHeaderChars e wrapCol.natAbs))  -- empty body is falsy
    else do
      let bodyLines ← format_body b (if !e.wrap then -1 else wrapCol)
      .ok (ofChars (entryHeaderChars e wrapCol.natAbs ++ '\n' :: '\n' ::
        (bodyLines.map (fun l => l.data ++ ['\n'])).flatten))

/-! ## Filter engine / entry store (src/j.py lines 195-203, 477-525) -/

/-- Model of `FilterSettings`.  Python stores `None` or a list and tests
truthiness, under which `None` and `[]` coincide, so plain lists suffice. -/
structure FilterSettings where
  tagFilters : List String := []
  textualFilters : List String := []
  timeFilter : Option TimeFilter := none
  idFilters : List String := []
  caseSensitive : Bool := false

/-- The per-entry filter conjunction of `Journal._collect_entries`:
time filter (skipped for immortal entries), then tag, text and id filters. -/
def passesFilters (now : Int) (fs : FilterSettings) (e : Entry) (content : String) : Bool :=
  (e.immortal || (match fs.timeFilter with
    | none => true
    | some tf => tf.matches now e.time)) &&
  (fs.tagFilters.isEmpty || fs.tagFilters.all (fun t => e.matchesTag t)) &&
  (fs.textualFilters.isEmpty ||
    fs.textualFilters.all (fun t => Entry.matchesText content t fs.caseSensitive)) &&
  (fs.idFilters.isEmpty || e.matchesIds fs.idFilters)

/-- Stable descending insertion by timestamp. -/
def insertByTimeDesc (e : Entry) : List Entry → List Entry
  | [] => [e]
  | x :: xs => if e.time ≥ x.time then e :: x :: xs else x :: insertByTimeDesc e xs

/-- Model of `sorted(entries, key=lambda e: e.time, reverse=True)` (a stable
sort, newest first). -/
def sortByTimeDesc : List Entry → List Entry
  | [] => []
  | x :: xs => insertByTimeDesc x (sortByTimeDesc xs)

/-- The scan loop of `Journal._collect_entries` over the directory listing,
given as `(basename, file content)` pairs: skip dotfiles, parse every other
file (a `ParseError`/`ValueError` aborts the scan as in Python), and keep the
entries passing all filters. -/
def collectLoop (now : Int) (fs : FilterSettings) (bodies : Bool) :
    List (String × String) → Except PError (List Entry)
  | [] => .ok []
  | (fname, content) :: files =>
    if fname.data.headD ' ' = '.' then collectLoop now fs bodies files
    else do
      let e ← Entry.parse fname content (!bodies)
      let tail ← collectLoop now fs bodies files
      if passesFilters now fs e content then .ok (e :: tail) else .ok tail

/-- Model of `Journal._collect_entries`: the filtered entries, newest
first. -/
def collectEntries (now : Int) (files : List (String × String)) (fs : FilterSettings)
    (bodies : Bool) : Except PError (List Entry) :=
  (collectLoop now fs bodies files).map sortByTimeDesc

/-! ## Auxiliary definitions used by the statements below -/

/-- A token the attribute-line loop accepts: a tag marker or a known flag. -/
def validAttrTok (tk : List Char) : Prop :=
  tk.headD ' ' = '@' ∨ tk = "immortal".data ∨ tk = "nowrap".data

instance (tk : List Char) : Decidable (validAttrTok tk) := by
  unfold validAttrTok; infer_instance

/-- Number of fence-marker lines in a line list. -/
def countFence (ls : List (List Char)) : Nat :=
  ls.countP (fun l => l == "```".data)

/-- A concrete entry used to exercise the formatter round trip. -/
def c3Entry : Entry :=
  ⟨"20200101_000000-x", "Hello", 63739872000, some "world", [], false, true⟩

/-- The rendering of `c3Entry` at the default wrap column. -/
def c3Rendered : String :=
  match Entry.format c3Entry 78 with
  | .ok r => r
  | .error _ => ""

/-- A concrete two-file journal directory for the tag-filter witness. -/
def c8Files : List (String × String) :=
  [("20200101_000000-a", "T\n@a @b\n\nbody"), ("20200101_000001-b", "U\n@a\n")]

/-- The single entry of `c8Files` carrying both tags `a` and `b`. -/
def c8Entry : Entry :=
  ⟨"20200101_000000-a", "T", 63739872000, some "body", ["a", "b"], false, true⟩

/-- Decidable equality for `Except` results, so that concrete runs of the
embedded functions can be checked by `decide`. -/
instance {e a : Type} [DecidableEq e] [DecidableEq a] : DecidableEq (Except e a)
  | .ok x, .ok y =>
    if h : x = y then .isTrue (by rw [h])
    else .isFalse (by intro hh; cases hh; exact h rfl)
  | .ok _, .error _ => .isFalse (by intro h; cases h)
  | .error _, .ok _ => .isFalse (by intro h; cases h)
  | .error x, .error y =>
    if h : x = y then .isTrue (by rw [h])
    else .isFalse (by intro hh; cases hh; exact h rfl)

/-! ## Claim C5: negative wrap column returns the raw lines -/

/-- C5: for every input body text and every negative wrap column, the body
reflow returns exactly the input split on line boundaries, unprocessed. -/
theorem format_body_negative_col (input : String) (col : Int) (h : col < 0) :
    format_body input col = .ok (pySplitlines input) := by
  simp [format_body, h]

/-- Witness for C5 at a concrete body and column. -/
theorem format_body_negative_col_witness :
    format_body "a\nb\n\nc" (-1) = .ok ["a", "b", "", "c"] := by
  rw [format_body_negative_col "a\nb\n\nc" (-1) (by decide)]
  rfl

/-! ## Claim C9: wrap column zero raises ValueError on ordinary prose -/

/-- The error value `textwrap.wrap` produces at a given non-positive
width. -/
theorem textwrapWrap_nonpos (text : List Char) (width : Int) (h : width ≤ 0) :
    textwrapWrap text width =
      .error (.valueError ("invalid width " ++ toString width ++ " (must be > 0)")) := by
  simp [textwrapWrap, h]

/-- Flushing a non-empty paragraph at a non-positive column raises. -/
theorem flushPara_nonpos (col : Int) (last : Bool) (st : FBState)
    (hcol : col ≤ 0) (hpara : st.para ≠ []) :
    flushPara col last st =
      .error (.valueError ("invalid width " ++ toString col ++ " (must be > 0)")) := by
  simp [flushPara, hpara, textwrapWrap_nonpos _ _ hcol, Bind.bind, Except.bind]

/-- The prologue preserves the paragraph buffer, the fence flag and the
list flag. -/
theorem fbNl_fields (st : FBState) :
    (fbNl st).para = st.para ∧ (fbNl st).inTriples = st.inTriples ∧
      (fbNl st).inList = st.inList := by
  unfold fbNl; split <;> simp

/-- At a non-positive column, one dispatch step with a non-empty paragraph
buffer either raises the width error or keeps the buffer non-empty (no branch
discards buffered lines without flushing them). -/
theorem fbDispatch_nonpos_para (col : Int) (st : FBState) (l : List Char)
    (hcol : col ≤ 0) (hpara : st.para ≠ []) :
    fbDispatch col st l =
        .error (.valueError ("invalid width " ++ toString col ++ " (must be > 0)")) ∨
      ∃ st', fbDispatch col st l = .ok st' ∧ st'.para ≠ [] := by
  unfold fbDispatch
  by_cases hf : l = "```".data
  · rw [if_pos hf]
    by_cases ht : st.inTriples
    · rw [if_neg (by simp [ht])]
      right; exact ⟨_, rfl, by simpa using hpara⟩
    · rw [if_pos (by simp [ht])]
      left
      simp [flushPara_nonpos col false st hcol hpara, Bind.bind, Except.bind]
  · rw [if_neg hf]
    by_cases ht : st.inTriples = true
    · rw [if_pos ht]
      right; exact ⟨_, rfl, by simpa using hpara⟩
    · rw [if_neg ht]
      by_cases hb : stripChars l = []
      · rw [if_pos hb]
        by_cases hl : st.inList = true
        · rw [if_pos hl]
          right; exact ⟨_, rfl, by simpa using hpara⟩
        · rw [if_neg hl]
          left; exact flushPara_nonpos col false st hcol hpara
      · rw [if_neg hb]
        by_cases hu : (listStartsWith "http://".data l || listStartsWith "https://".data l) = true
        · rw [if_pos hu]
          right; exact ⟨_, rfl, by simpa using hpara⟩
        · rw [if_neg hu]
          cases hw : splitWS l with
          | nil =>
            simp only [hw]
            right; exact ⟨st, rfl, hpara⟩
          | cons w ws =>
            simp only [hw]
            by_cases hh : (w.all fun ch => ch = '#') = true
            · rw [if_pos hh]
              left
              simp [flushPara_nonpos col false st hcol hpara, Bind.bind, Except.bind]
            · rw [if_neg hh]
              by_cases hd : (match l.dropWhile isPySpace with
                | c :: _ => c = '-' || c = '*'
                | [] => false) = true
              · rw [if_pos hd]
                right; exact ⟨_, rfl, by simpa using hpara⟩
              · rw [if_neg hd]
                by_cases hil : st.inList = true
                · rw [if_pos hil]
                  right; exact ⟨_, rfl, by simpa using hpara⟩
                · rw [if_neg hil]
                  right; exact ⟨_, rfl, by simp [hpara]⟩

/-- Step-level version of `fbDispatch_nonpos_para`. -/
theorem fbStep_nonpos_para (col : Int) (st : FBState) (l : List Char)
    (hcol : col ≤ 0) (hpara : st.para ≠ []) :
    fbStep col st l =
        .error (.valueError ("invalid width " ++ toString col ++ " (must be > 0)")) ∨
      ∃ st', fbStep col st l = .ok st' ∧ st'.para ≠ [] := by
  have h := fbNl_fields st
  have : (fbNl st).para ≠ [] := by rw [h.1]; exact hpara
  exact fbDispatch_nonpos_para col (fbNl st) l hcol this

/-- At a non-positive column, the loop raises the width error as soon as a
paragraph line has been buffered. -/
theorem fbLoop_nonpos_para (col : Int) (hcol : col ≤ 0) :
    ∀ (ls : List (List Char)) (st : FBState), st.para ≠ [] →
      fbLoop col st ls =
        .error (.valueError ("invalid width " ++ toString col ++ " (must be > 0)")) := by
  intro ls
  induction ls with
  | nil =>
    intro st hpara
    simp [fbLoop, flushPara_nonpos col true st hcol hpara, Bind.bind, Except.bind]
  | cons l ls ih =>
    intro st hpara
    rcases fbStep_nonpos_para col st l hcol hpara with herr | ⟨st', hok, hpara'⟩
    · simp [fbLoop, herr, Bind.bind, Except.bind]
    · simp [fbLoop, hok, Bind.bind, Except.bind, ih st' hpara']

/-- C9: at wrap column exactly 0, a body whose first line is ordinary prose
(non-blank, not a fence marker, not a URL, not a heading, not a list item)
makes `format_body` raise `ValueError` instead of returning lines: the
function is not total at the boundary between the negative and positive
column regimes. -/
theorem format_body_zero_col_raises (input : String) (l0 : List Char)
    (rest : List (List Char)) (w : List Char) (ws : List (List Char))
    (hsplit : splitlinesChars input.data = l0 :: rest)
    (hfence : l0 ≠ "```".data)
    (hblank : stripChars l0 ≠ [])
    (hurl : (listStartsWith "http://".data l0 || listStartsWith "https://".data l0) = false)
    (hwords : splitWS l0 = w :: ws)
    (hhead : (w.all fun ch => ch = '#') = false)
    (hlist : (match l0.dropWhile isPySpace with
      | c :: _ => c = '-' || c = '*'
      | [] => false) = false) :
    format_body input 0 = .error (.valueError "invalid width 0 (must be > 0)") := by
  have hstep : fbStep 0 ⟨[], [], false, false, false⟩ l0 =
      .ok ⟨[joinSep ' ' (w :: ws)], [], false, false, false⟩ := by
    unfold fbStep fbNl fbDispatch
    simp [hfence, hblank, hurl, hwords, hhead, hlist]
  have hmsg : ("invalid width " ++ toString (0 : Int) ++ " (must be > 0)") =
      "invalid width 0 (must be > 0)" := rfl
  unfold format_body
  rw [if_neg (by omega), hsplit]
  have hrest := fbLoop_nonpos_para 0 (by omega) rest
    ⟨[joinSep ' ' (w :: ws)], [], false, false, false⟩ (by simp)
  simp only [fbLoop, hstep, Bind.bind, Except.bind]
  rw [hrest, hmsg]

/-- Witness for C9: the body `"hello world"` at column 0. -/
theorem format_body_zero_col_raises_witness :
    format_body "hello world" 0 = .error (.valueError "invalid width 0 (must be > 0)") :=
  format_body_zero_col_raises "hello world" "hello world".data []
    "hello".data ["world".data] (by decide) (by decide) (by decide) (by decide)
    (by decide) (by decide) (by decide)

/-! ## Claims C7, C6, C1: the time-filter mini-language -/

/-- Evaluation of `from_arg` on a two-element expression whose parts both
resolve: the result is the interval, or the start-after-stop error. -/
theorem fromArg_two_elems (now : Int) (arg : String) (e1 e2 : List Char) (s1 s2 : Int)
    (hs : splitOnChar ':' arg.data = [e1, e2])
    (h1 : parseTimeFilterElem now (ofChars e1) .start = .ok s1)
    (h2 : parseTimeFilterElem now (ofChars e2) .stop = .ok s2) :
    TimeFilter.fromArg now arg =
      if s1 > s2 then .error (.timeFilterException "start time is later than stop time")
      else .ok ⟨some s1, some s2⟩ := by
  unfold TimeFilter.fromArg
  rw [hs]
  simp only [h1, h2, Bind.bind, Except.bind]

/-- C7: with the time source frozen at any instant `now`, the expression
`"2y:1y"` resolves to the interval from `now` minus 730 days (63072000
seconds) to `now` minus 365 days (31536000 seconds). -/
theorem fromArg_two_years_one_year (now : Int) :
    TimeFilter.fromArg now "2y:1y" = .ok ⟨some (now - 63072000), some (now - 31536000)⟩ := by
  rw [fromArg_two_elems now "2y:1y" ['2', 'y'] ['1', 'y']
    (now - 63072000) (now - 31536000) rfl rfl rfl]
  rw [if_neg (by omega)]

/-- Witness for C7 at the concrete frozen instant 0. -/
theorem fromArg_two_years_one_year_witness :
    TimeFilter.fromArg 0 "2y:1y" = .ok ⟨some (-63072000), some (-31536000)⟩ := by
  rw [fromArg_two_years_one_year 0]
  norm_num

/-- C6 (amended): when both elements of a two-part expression resolve and
the start instant is strictly later than the stop instant, `from_arg` raises
`TimeFilterException` with the message the source actually uses,
`"start time is later than stop time"`. -/
theorem fromArg_start_after_stop (now : Int) (arg : String) (e1 e2 : List Char) (s1 s2 : Int)
    (hs : splitOnChar ':' arg.data = [e1, e2])
    (h1 : parseTimeFilterElem now (ofChars e1) .start = .ok s1)
    (h2 : parseTimeFilterElem now (ofChars e2) .stop = .ok s2)
    (hgt : s1 > s2) :
    TimeFilter.fromArg now arg =
      .error (.timeFilterException "start time is later than stop time") := by
  rw [fromArg_two_elems now arg e1 e2 s1 s2 hs h1 h2, if_pos hgt]

/-- Counterexample for C6 as stated: the exception message is not
`"start later than stop"`; the code raises
`"start time is later than stop time"`. -/
theorem fromArg_start_after_stop_counterexample :
    TimeFilter.fromArg 0 "2001:2000" ≠
        .error (.timeFilterException "start later than stop") ∧
      TimeFilter.fromArg 0 "2001:2000" =
        .error (.timeFilterException "start time is later than stop time") := by
  constructor <;> decide

/-- Witness for C6 (amended) at the concrete expression `"2001:2000"`. -/
theorem fromArg_start_after_stop_witness :
    TimeFilter.fromArg 0 "2001:2000" =
      .error (.timeFilterException "start time is later than stop time") :=
  fromArg_start_after_stop 0 "2001:2000" ['2', '0', '0', '1'] ['2', '0', '0', '0']
    63140342400 63108720000 rfl (by decide) (by decide) (by decide)

/-- C1 (amended): a filter built from an expression with the stop part
omitted (`"start"` or `"start:"`) gets `stop = datetime.max`, the distant
future, not the match-time `now`; its `matches` therefore accepts every
entry between `start` and `datetime.max`, including entries strictly later
than the current time.  (The `now`-defaulting branch of `matches` triggers
only on a `None` stop, which `from_arg` never produces.) -/
theorem fromArg_stop_omitted_distant_future (now now' : Int) (arg : String)
    (e1 : List Char) (tf : TimeFilter)
    (hshape : splitOnChar ':' arg.data = [e1] ∨ splitOnChar ':' arg.data = [e1, []])
    (hok : TimeFilter.fromArg now arg = .ok tf) :
    tf.stop = some dtMax ∧
      ∀ t s, tf.start = some s → s ≤ t → t ≤ dtMax → tf.matches now' t = true := by
  have main : tf.stop = some dtMax ∧ ∃ s0, tf.start = some s0 := by
    rcases hshape with hs | hs
    · unfold TimeFilter.fromArg at hok
      rw [hs] at hok
      cases h1 : parseTimeFilterElem now (ofChars e1) .start with
      | error e => simp [h1, Bind.bind, Except.bind] at hok
      | ok s =>
        simp only [h1, Bind.bind, Except.bind] at hok
        by_cases hgt : s > dtMax
        · rw [if_pos hgt] at hok; exact absurd hok (by simp)
        · rw [if_neg hgt] at hok
          cases hok
          exact ⟨rfl, s, rfl⟩
    · unfold TimeFilter.fromArg at hok
      rw [hs] at hok
      cases h1 : parseTimeFilterElem now (ofChars e1) .start with
      | error e => simp [h1, Bind.bind, Except.bind] at hok
      | ok s =>
        have h2 : parseTimeFilterElem now (ofChars []) .stop = .ok dtMax := rfl
        simp only [h1, h2, Bind.bind, Except.bind] at hok
        by_cases hgt : s > dtMax
        · rw [if_pos hgt] at hok; exact absurd hok (by simp)
        · rw [if_neg hgt] at hok
          cases hok
          exact ⟨rfl, s, rfl⟩
  refine ⟨main.1, ?_⟩
  intro t s hstart hle hle'
  unfold TimeFilter.matches
  rw [hstart, main.1]
  simp [hle, hle']

/-- Counterexample for C1 as stated: with the clock frozen at 0, the filter
`"1d"` (stop omitted) accepts an entry stamped 3600 seconds in the future,
where the claim demands rejection of entries later than `now`. -/
theorem fromArg_stop_omitted_counterexample :
    TimeFilter.fromArg 0 "1d" = .ok ⟨some (-86400), some dtMax⟩ ∧
      TimeFilter.matches ⟨some (-86400), some dtMax⟩ 0 3600 = true := by
  constructor <;> decide

/-- Witness for C1 (amended) at the expression `"1d"`, frozen clock 0, and
the future entry time 3600. -/
theorem fromArg_stop_omitted_distant_future_witness :
    (TimeFilter.mk (some (-86400)) (some dtMax)).stop = some dtMax ∧
      TimeFilter.matches ⟨some (-86400), some dtMax⟩ 0 3600 = true := by
  have h := fromArg_stop_omitted_distant_future 0 0 "1d" ['1', 'd']
    ⟨some (-86400), some dtMax⟩ (Or.inl (by decide)) (by decide)
  exact ⟨h.1, h.2 3600 (-86400) rfl (by decide) (by decide)⟩

/-! ## Claims C2, C10: entry-parse error behaviour -/

/-- C2 (amended): a filename whose prefix before the first `-` is not a
well-formed `YYYYMMDD_HHMMSS` timestamp makes `Entry.parse` fail with the
uncaught low-level `ValueError` from `datetime.strptime` — not with a
`ParseError("bad timestamp")`, which the code never raises. -/
theorem parse_bad_timestamp_value_error (fname content : String) (metaOnly : Bool)
    (hbad : strptime timeFormatDirs ((splitOnChar '-' fname.data).headD []) = none) :
    Entry.parse fname content metaOnly = .error (.valueError strptimeErrMsg) := by
  unfold Entry.parse
  simp only [hbad]

/-- Counterexample for C2 as stated: parsing the filename `"foo.txt"` fails
with a `ValueError`, not with `ParseError("bad timestamp")`. -/
theorem parse_bad_timestamp_counterexample :
    Entry.parse "foo.txt" "Hello\n" false ≠ .error (.parseError "bad timestamp") ∧
      Entry.parse "foo.txt" "Hello\n" false = .error (.valueError strptimeErrMsg) := by
  constructor <;> decide

/-- Witness for C2 (amended) at the filename `"foo.txt"`. -/
theorem parse_bad_timestamp_value_error_witness :
    Entry.parse "foo.txt" "Hello\n" false = .error (.valueError strptimeErrMsg) :=
  parse_bad_timestamp_value_error "foo.txt" "Hello\n" false (by decide)

/-- The attribute loop rejects the first token that is neither a tag marker
nor a known flag; when the earlier tokens are all valid and the next token is
empty (as produced by adjacent separators), the error names the empty
token. -/
theorem parseAttrs_empty_token (ts1 ts2 : List (List Char))
    (acc : List String × Bool × Bool)
    (hval : ∀ tk ∈ ts1, validAttrTok tk) :
    parseAttrs (ts1 ++ [] :: ts2) acc = .error (.parseError "unknown attribute ") := by
  induction ts1 generalizing acc with
  | nil => rfl
  | cons tk ts1 ih =>
    have htk := hval tk (by simp)
    have hrest : ∀ tk' ∈ ts1, validAttrTok tk' := fun tk' h => hval tk' (by simp [h])
    obtain ⟨tags, imm, wr⟩ := acc
    rcases htk with hat | him | hnw
    · cases tk with
      | nil => simp [List.headD] at hat
      | cons c t =>
        simp only [List.headD] at hat
        subst hat
        simpa [parseAttrs] using ih _ hrest
    · subst him
      simpa [parseAttrs] using ih _ hrest
    · subst hnw
      simpa [parseAttrs] using ih _ hrest

/-- C10: an attribute line containing two adjacent spaces between otherwise
valid tokens (so that splitting on single spaces yields an empty token)
makes `Entry.parse` fail with `ParseError` naming the empty token. -/
theorem parse_adjacent_spaces_empty_attr (fname content : String) (metaOnly : Bool)
    (time : Int) (l1 l2 : List Char) (rest ts1 ts2 : List (List Char))
    (htime : strptime timeFormatDirs ((splitOnChar '-' fname.data).headD []) = some time)
    (hlines : readlinesChars content.data = l1 :: l2 :: rest)
    (htitle : stripChars l1 ≠ [])
    (hattr : stripChars l2 ≠ [])
    (hsplit : splitOnChar ' ' (stripChars l2) = ts1 ++ [] :: ts2)
    (hval : ∀ tk ∈ ts1, validAttrTok tk) :
    Entry.parse fname content metaOnly = .error (.parseError "unknown attribute ") := by
  unfold Entry.parse
  simp only [htime, hlines, htitle, if_neg htitle, hattr, if_pos hattr, ne_eq,
    not_false_eq_true, ite_true, ite_false, hsplit,
    parseAttrs_empty_token ts1 ts2 _ hval, Bind.bind, Except.bind]

/-- Witness for C10: a double space inside the attribute line
`"immortal  @x"`. -/
theorem parse_adjacent_spaces_empty_attr_witness :
    Entry.parse "20200101_000000-a" "T\nimmortal  @x\n\nb" false =
      .error (.parseError "unknown attribute ") :=
  parse_adjacent_spaces_empty_attr "20200101_000000-a" "T\nimmortal  @x\n\nb" false
    63739872000 "T\n".data "immortal  @x\n".data ["\n".data, "b".data]
    ["immortal".data] ["@x".data]
    (by decide) (by decide) (by decide) (by decide) (by decide) (by decide)

/-! ## Claim C8: tag filters require every requested tag -/

/-- Insertion keeps exactly the members. -/
theorem mem_insertByTimeDesc (a e : Entry) (l : List Entry) :
    a ∈ insertByTimeDesc e l ↔ a = e ∨ a ∈ l := by
  induction l with
  | nil => simp [insertByTimeDesc]
  | cons x xs ih =>
    unfold insertByTimeDesc
    split
    · simp
    · simp [ih]
      tauto

/-- The stable descending sort keeps exactly the members. -/
theorem mem_sortByTimeDesc (a : Entry) (l : List Entry) :
    a ∈ sortByTimeDesc l ↔ a ∈ l := by
  induction l with
  | nil => simp [sortByTimeDesc]
  | cons x xs ih => simp [sortByTimeDesc, mem_insertByTimeDesc, ih]

/-- Every entry kept by the collection loop passed the filter conjunction
against the content of its own file. -/
theorem collectLoop_mem_passes (now : Int) (fs : FilterSettings) (bodies : Bool) :
    ∀ (files : List (String × String)) (es : List Entry),
      collectLoop now fs bodies files = .ok es →
      ∀ e ∈ es, ∃ c, passesFilters now fs e c = true := by
  intro files
  induction files with
  | nil =>
    intro es hok e he
    cases hok
    simp at he
  | cons f files ih =>
    intro es hok e he
    obtain ⟨fname, content⟩ := f
    unfold collectLoop at hok
    by_cases hdot : fname.data.headD ' ' = '.'
    · rw [if_pos hdot] at hok
      exact ih es hok e he
    · rw [if_neg hdot] at hok
      cases hp : Entry.parse fname content (!bodies) with
      | error err => rw [hp] at hok; simp [Bind.bind, Except.bind] at hok
      | ok e0 =>
        rw [hp] at hok
        cases hrest : collectLoop now fs bodies files with
        | error err =>
          rw [hrest] at hok
          simp [Bind.bind, Except.bind] at hok
        | ok tail =>
          rw [hrest] at hok
          simp only [Bind.bind, Except.bind] at hok
          by_cases hpass : passesFilters now fs e0 content = true
          · rw [if_pos hpass] at hok
            injection hok with h
            subst h
            rcases List.mem_cons.mp he with rfl | htail
            · exact ⟨content, hpass⟩
            · exact ih tail hrest e htail
          · rw [if_neg hpass] at hok
            injection hok with h
            subst h
            exact ih tail hrest e he

/-- C8: with a non-empty tag filter list, every entry returned by the
collection operation carries every requested tag. -/
theorem collectEntries_tags_superset (now : Int) (files : List (String × String))
    (fs : FilterSettings) (bodies : Bool) (es : List Entry)
    (hne : fs.tagFilters ≠ [])
    (hok : collectEntries now files fs bodies = .ok es) :
    ∀ e ∈ es, ∀ t ∈ fs.tagFilters, t ∈ e.tags := by
  intro e he t ht
  unfold collectEntries at hok
  cases hloop : collectLoop now fs bodies files with
  | error err =>
    rw [hloop] at hok
    exact Except.noConfusion (show Except.error (α := List Entry) err = Except.ok es from hok)
  | ok es0 =>
    rw [hloop] at hok
    have hok2 : Except.ok (ε := PError) (sortByTimeDesc es0) = Except.ok es := hok
    injection hok2 with h
    subst h
    have he0 : e ∈ es0 := (mem_sortByTimeDesc e es0).mp he
    obtain ⟨c, hpass⟩ := collectLoop_mem_passes now fs bodies files es0 hloop e he0
    unfold passesFilters at hpass
    have htag : (fs.tagFilters.isEmpty || fs.tagFilters.all fun t => e.matchesTag t) = true := by
      rcases Bool.and_eq_true_iff.mp hpass with ⟨h1, h2⟩
      rcases Bool.and_eq_true_iff.mp h1 with ⟨h3, h4⟩
      exact (Bool.and_eq_true_iff.mp h3).2
    have hiseq : fs.tagFilters.isEmpty = false := by
      cases hfil : fs.tagFilters with
      | nil => exact absurd hfil hne
      | cons a as => simp [hfil]
    rw [hiseq, Bool.false_or] at htag
    have := List.all_eq_true.mp htag t ht
    unfold Entry.matchesTag at this
    simpa using this

/-- Witness for C8 on a concrete two-file journal with tag filters
`["a", "b"]`: the returned entry carries both tags. -/
theorem collectEntries_tags_superset_witness :
    "a" ∈ c8Entry.tags ∧ "b" ∈ c8Entry.tags := by
  have h := collectEntries_tags_superset 0 c8Files
    ⟨["a", "b"], [], none, [], false⟩ true [c8Entry] (by decide) (by decide)
  exact ⟨h c8Entry (by simp) "a" (by decide), h c8Entry (by simp) "b" (by decide)⟩

/-! ## Claim C4: fenced blocks are reproduced verbatim with the `| ` marker -/

/-- At a positive column, flushing always succeeds; the output is only ever
extended and the flags are reset. -/
theorem flushPara_pos (col : Int) (hcol : 1 ≤ col) (last : Bool) (st : FBState) :
    ∃ w, flushPara col last st = .ok ⟨[], st.out ++ w, st.inTriples, false, false⟩ := by
  unfold flushPara
  by_cases hp : st.para ≠ []
  · rw [if_pos hp]
    unfold textwrapWrap
    rw [if_neg (by omega)]
    refine ⟨(wrapGreedy col.toNat [] (splitWS (joinSep '\n' st.para))).map ofChars ++
      (if last then [] else [""]), ?_⟩
    simp [Bind.bind, Except.bind, List.append_assoc]
  · rw [if_neg hp]
    refine ⟨[], ?_⟩
    obtain ⟨p, o, it, il, nl⟩ := st
    simp only [ne_eq, not_not] at hp
    subst hp
    simp

/-- The prologue only appends to the output. -/
theorem fbNl_out (st : FBState) : ∃ w, (fbNl st).out = st.out ++ w := by
  unfold fbNl
  split
  · exact ⟨[""], rfl⟩
  · exact ⟨[], (List.append_nil _).symm⟩

/-- The prologue of a state without a pending blank line is the identity. -/
theorem fbNl_noNl (st : FBState) (h : st.newlineOnNext = false) : fbNl st = st := by
  unfold fbNl
  simp [h]

/-- At a positive column, one dispatch step always succeeds, only appends to
the output, and toggles the fence flag exactly on fence-marker lines. -/
theorem fbDispatch_pos_spec (col : Int) (hcol : 1 ≤ col) (st : FBState) (l : List Char) :
    ∃ st' app, fbDispatch col st l = .ok st' ∧ st'.out = st.out ++ app ∧
      st'.inTriples = (if l = "```".data then !st.inTriples else st.inTriples) := by
  unfold fbDispatch
  by_cases hf : l = "```".data
  · rw [if_pos hf]
    by_cases ht : st.inTriples
    · rw [if_neg (by simp [ht])]
      exact ⟨_, ["\\"], rfl, rfl, by simp [ht, hf]⟩
    · rw [if_pos (by simp [ht])]
      obtain ⟨w, hw⟩ := flushPara_pos col hcol false st
      refine ⟨⟨[], st.out ++ w ++ ["/"], true, false, false⟩, w ++ ["/"], ?_, ?_, ?_⟩
      · simp only [hw, Bind.bind, Except.bind]
      · simp [List.append_assoc]
      · simp [ht, hf]
  · rw [if_neg hf]
    by_cases ht : st.inTriples = true
    · rw [if_pos ht]
      exact ⟨_, [ofChars ('|' :: ' ' :: l)], rfl, rfl, by simp [hf, ht]⟩
    · rw [if_neg ht]
      by_cases hb : stripChars l = []
      · rw [if_pos hb]
        by_cases hl : st.inList = true
        · rw [if_pos hl]
          exact ⟨_, [], rfl, by simp, by simp [hf]⟩
        · rw [if_neg hl]
          obtain ⟨w, hw⟩ := flushPara_pos col hcol false st
          exact ⟨_, w, hw, rfl, by simp [hf]⟩
      · rw [if_neg hb]
        by_cases hu : (listStartsWith "http://".data l || listStartsWith "https://".data l) = true
        · rw [if_pos hu]
          exact ⟨_, [ofChars l], rfl, rfl, by simp [hf]⟩
        · rw [if_neg hu]
          cases hw : splitWS l with
          | nil =>
            simp only [hw]
            exact ⟨st, [], rfl, by simp, by simp [hf]⟩
          | cons w ws =>
            simp only [hw]
            by_cases hh : (w.all fun ch => ch = '#') = true
            · rw [if_pos hh]
              obtain ⟨w', hw'⟩ := flushPara_pos col hcol false st
              refine ⟨⟨[], st.out ++ w' ++ [ofChars l, ofChars (List.replicate l.length '-'), ""],
                  st.inTriples, false, false⟩,
                w' ++ [ofChars l, ofChars (List.replicate l.length '-'), ""], ?_, ?_, ?_⟩
              · simp only [hw', Bind.bind, Except.bind]
              · simp [List.append_assoc]
              · simp [hf]
            · rw [if_neg hh]
              by_cases hd : (match l.dropWhile isPySpace with
                | c :: _ => c = '-' || c = '*'
                | [] => false) = true
              · rw [if_pos hd]
                exact ⟨_, [ofChars l], rfl, rfl, by simp [hf]⟩
              · rw [if_neg hd]
                by_cases hil : st.inList = true
                · rw [if_pos hil]
                  exact ⟨_, [ofChars l], rfl, rfl, by simp [hf]⟩
                · rw [if_neg hil]
                  exact ⟨_, [], rfl, by simp, by simp [hf]⟩

/-- Step-level version of `fbDispatch_pos_spec`. -/
theorem fbStep_pos_spec (col : Int) (hcol : 1 ≤ col) (st : FBState) (l : List Char) :
    ∃ st' app, fbStep col st l = .ok st' ∧ st'.out = st.out ++ app ∧
      st'.inTriples = (if l = "```".data then !st.inTriples else st.inTriples) := by
  obtain ⟨w0, hw0⟩ := fbNl_out st
  have hfields := fbNl_fields st
  obtain ⟨st', app, hd, hout, htrip⟩ := fbDispatch_pos_spec col hcol (fbNl st) l
  refine ⟨st', w0 ++ app, hd, ?_, ?_⟩
  · rw [hout, hw0, List.append_assoc]
  · rw [htrip, hfields.2.1]

/-- At a positive column, the loop always succeeds and only appends to the
accumulated output. -/
theorem fbLoop_pos_mono (col : Int) (hcol : 1 ≤ col) :
    ∀ (ls : List (List Char)) (st : FBState),
      ∃ out app, fbLoop col st ls = .ok out ∧ out = st.out ++ app := by
  intro ls
  induction ls with
  | nil =>
    intro st
    obtain ⟨w, hw⟩ := flushPara_pos col hcol true st
    exact ⟨st.out ++ w, w, by simp [fbLoop, hw, Bind.bind, Except.bind], rfl⟩
  | cons l ls ih =>
    intro st
    obtain ⟨st', app, hstep, hout, _⟩ := fbStep_pos_spec col hcol st l
    obtain ⟨out, app2, hloop, hout2⟩ := ih st'
    refine ⟨out, app ++ app2, ?_, ?_⟩
    · simp [fbLoop, hstep, Bind.bind, Except.bind, hloop]
    · rw [hout2, hout, List.append_assoc]

/-- Inside a fence, a non-marker line is emitted verbatim with the fixed
two-character `"| "` marker and the state is otherwise unchanged. -/
theorem fbDispatch_interior (col : Int) (st : FBState) (l : List Char)
    (ht : st.inTriples = true) (hne : l ≠ "```".data) :
    fbDispatch col st l = .ok { st with out := st.out ++ [ofChars ('|' :: ' ' :: l)] } := by
  unfold fbDispatch
  rw [if_neg hne, if_pos ht]

/-- Running the loop through the interior of a fence appends exactly the
marker-prefixed lines. -/
theorem fbLoop_interior (col : Int) (mid : List (List Char))
    (hmid : ∀ l ∈ mid, l ≠ "```".data) :
    ∀ (st : FBState) (rest : List (List Char)),
      st.inTriples = true → st.newlineOnNext = false →
      fbLoop col st (mid ++ rest) =
        fbLoop col { st with out := st.out ++ mid.map (fun l => ofChars ('|' :: ' ' :: l)) }
          rest := by
  induction mid with
  | nil =>
    intro st rest _ _
    simp
  | cons l mid ih =>
    intro st rest ht hnl
    have hlm : l ≠ "```".data := hmid l (by simp)
    have hrest : ∀ l' ∈ mid, l' ≠ "```".data := fun l' h => hmid l' (by simp [h])
    have hstep : fbStep col st l = .ok { st with out := st.out ++ [ofChars ('|' :: ' ' :: l)] } := by
      unfold fbStep
      rw [fbNl_noNl st hnl]
      exact fbDispatch_interior col st l ht hlm
    have := ih hrest { st with out := st.out ++ [ofChars ('|' :: ' ' :: l)] } rest
      (by simpa using ht) (by simpa using hnl)
    calc fbLoop col st ((l :: mid) ++ rest)
        = fbLoop col { st with out := st.out ++ [ofChars ('|' :: ' ' :: l)] } (mid ++ rest) := by
          simp [fbLoop, hstep, Bind.bind, Except.bind]
      _ = _ := by
          rw [this]
          simp [List.append_assoc]

/-- Opening a fence at a positive column: the buffered paragraph is flushed,
the open marker is emitted, and the loop state enters the fence with no
pending blank line. -/
theorem fbStep_fence_open (col : Int) (hcol : 1 ≤ col) (st : FBState)
    (ht : st.inTriples = false) :
    ∃ app, fbStep col st "```".data = .ok ⟨[], st.out ++ app, true, false, false⟩ := by
  unfold fbStep
  obtain ⟨w0, hw0⟩ := fbNl_out st
  have hfields := fbNl_fields st
  unfold fbDispatch
  rw [if_pos rfl, if_pos (by simp [hfields.2.1, ht])]
  obtain ⟨w, hw⟩ := flushPara_pos col hcol false (fbNl st)
  refine ⟨w0 ++ w ++ ["/"], ?_⟩
  simp only [hw, Bind.bind, Except.bind]
  have : (fbNl st).out ++ w ++ ["/"] = st.out ++ (w0 ++ w ++ ["/"]) := by
    rw [hw0]
    simp [List.append_assoc]
  simp [hfields.2.1, this]

/-- The fence-parity invariant: if the fence flag equals the parity of the
fence markers still to come before a paired fence, every interior line of
that fence appears in the final output with the `"| "` marker. -/
theorem fbLoop_fence_mem (col : Int) (hcol : 1 ≤ col) (mid post : List (List Char))
    (hmid : ∀ l ∈ mid, l ≠ "```".data) :
    ∀ (pre : List (List Char)) (st : FBState) (out : List String),
      st.inTriples = decide (countFence pre % 2 = 1) →
      fbLoop col st (pre ++ "```".data :: (mid ++ "```".data :: post)) = .ok out →
      ∀ l ∈ mid, ofChars ('|' :: ' ' :: l) ∈ out := by
  intro pre
  induction pre with
  | nil =>
    intro st out hinv hok l hl
    have ht : st.inTriples = false := by simpa [countFence] using hinv
    obtain ⟨app, hopen⟩ := fbStep_fence_open col hcol st ht
    rw [List.nil_append] at hok
    have hok2 : fbLoop col ⟨[], st.out ++ app, true, false, false⟩
        (mid ++ "```".data :: post) = .ok out := by
      rw [← hok]
      simp [fbLoop, hopen, Bind.bind, Except.bind]
    rw [fbLoop_interior col mid hmid _ _ rfl rfl] at hok2
    obtain ⟨out', app2, hloop, hout⟩ := fbLoop_pos_mono col hcol
      ("```".data :: post)
      ⟨[], (st.out ++ app) ++ mid.map (fun l => ofChars ('|' :: ' ' :: l)), true, false, false⟩
    rw [hloop] at hok2
    injection hok2 with h
    subst h
    rw [hout]
    have hm : ofChars ('|' :: ' ' :: l) ∈ mid.map (fun l => ofChars ('|' :: ' ' :: l)) :=
      List.mem_map.mpr ⟨l, hl, rfl⟩
    simp only [List.append_assoc, List.mem_append]
    tauto
  | cons p pre ih =>
    intro st out hinv hok l hl
    obtain ⟨st', app, hstep, hout, htrip⟩ := fbStep_pos_spec col hcol st p
    rw [List.cons_append] at hok
    have hok2 : fbLoop col st' (pre ++ "```".data :: (mid ++ "```".data :: post)) = .ok out := by
      rw [← hok]
      simp [fbLoop, hstep, Bind.bind, Except.bind]
    refine ih st' out ?_ hok2 l hl
    by_cases hp : p = "```".data
    · rw [htrip, if_pos hp]
      have hcount : countFence (p :: pre) = countFence pre + 1 := by
        simp [countFence, List.countP_cons, hp]
      rw [hcount] at hinv
      by_cases hpar : countFence pre % 2 = 1
      · have : (countFence pre + 1) % 2 = 0 := by omega
        rw [this] at hinv
        simp only [hinv]
        simp [hpar]
      · have : (countFence pre + 1) % 2 = 1 := by omega
        rw [this] at hinv
        simp only [hinv]
        simp [hpar]
    · rw [htrip, if_neg hp]
      have hcount : countFence (p :: pre) = countFence pre := by
        simp [countFence, List.countP_cons, hp]
      rw [hcount] at hinv
      exact hinv

/-- C4 (amended): for every wrap column at least 1 and every body containing
a paired pair of fence-marker lines, `format_body` succeeds and every
interior line of the fenced block appears in the output byte-identical,
prefixed by the fixed two-character marker `"| "`.  (At column 0 the claim
fails: see the counterexample.) -/
theorem format_body_fence_verbatim (input : String) (col : Int)
    (pre mid post : List (List Char))
    (hcol : 1 ≤ col)
    (hsplit : splitlinesChars input.data = pre ++ "```".data :: (mid ++ "```".data :: post))
    (hparity : countFence pre % 2 = 0)
    (hmid : ∀ l ∈ mid, l ≠ "```".data) :
    ∃ out, format_body input col = .ok out ∧
      ∀ l ∈ mid, ofChars ('|' :: ' ' :: l) ∈ out := by
  unfold format_body
  rw [if_neg (by omega), hsplit]
  obtain ⟨out, app, hok, _⟩ := fbLoop_pos_mono col hcol
    (pre ++ "```".data :: (mid ++ "```".data :: post)) ⟨[], [], false, false, false⟩
  refine ⟨out, hok, fbLoop_fence_mem col hcol mid post hmid pre _ out ?_ hok⟩
  simp [hparity]

/-- Counterexample for C4 as stated (`W ≥ 0`): at column 0 a body with a
paragraph before the fence raises `ValueError`, so the interior line
appears in no output at all. -/
theorem format_body_fence_counterexample :
    format_body "a\n```\nb\n```" 0 = .error (.valueError "invalid width 0 (must be > 0)") ∧
      ∀ out, format_body "a\n```\nb\n```" 0 ≠ .ok out := by
  refine ⟨by decide, ?_⟩
  intro out h
  rw [(by decide : format_body "a\n```\nb\n```" 0 =
    .error (.valueError "invalid width 0 (must be > 0)"))] at h
  exact Except.noConfusion h

/-- Witness for C4 (amended) on a concrete fenced body at column 10. -/
theorem format_body_fence_verbatim_witness :
    ∃ out, format_body "hello there\n```\ncode line\n```\nbye" 10 = .ok out ∧
      ∀ l ∈ ["code line".data], ofChars ('|' :: ' ' :: l) ∈ out :=
  format_body_fence_verbatim "hello there\n```\ncode line\n```\nbye" 10
    ["hello there".data] ["code line".data] ["bye".data]
    (by decide) (by decide) (by decide) (by decide)

/-! ## Claim C3: the render/parse round trip -/

/-- Dropping a predicate from a list ending in a non-matching element keeps
that element. -/
theorem dropWhile_append_last (p : Char → Bool) (xs : List Char) (c : Char)
    (h : p c = false) :
    List.dropWhile p (xs ++ [c]) = List.dropWhile p xs ++ [c] := by
  induction xs with
  | nil => simp [List.dropWhile, h]
  | cons x xs ih =>
    by_cases hx : p x
    · simp [List.dropWhile, hx, ih]
    · simp [List.dropWhile, hx]

/-- Right-stripping ignores a non-space head. -/
theorem rstripChars_cons (c : Char) (l : List Char) (h : isPySpace c = false) :
    rstripChars (c :: l) = c :: rstripChars l := by
  unfold rstripChars
  rw [List.reverse_cons, dropWhile_append_last isPySpace l.reverse c h]
  simp

/-- Stripping a list with a non-space head keeps the head. -/
theorem stripChars_cons (c : Char) (l : List Char) (h : isPySpace c = false) :
    stripChars (c :: l) = c :: rstripChars l := by
  unfold stripChars
  rw [List.dropWhile_cons, if_neg (by simp [h])]
  exact rstripChars_cons c l h

/-- Stripping the rendered rule line (a run of `=` and its newline) yields
the bare rule. -/
theorem stripChars_rule (n : Nat) :
    stripChars (List.replicate n '=' ++ ['\n']) = List.replicate n '=' := by
  cases n with
  | zero => decide
  | succ m =>
    rw [List.replicate_succ, List.cons_append,
      stripChars_cons '=' (List.replicate m '=' ++ ['\n']) (by decide)]
    congr 1
    unfold rstripChars
    rw [List.reverse_append, List.reverse_replicate]
    have h1 : List.reverse ['\n'] ++ List.replicate m '=' = '\n' :: List.replicate m '=' := by
      simp
    rw [h1, List.dropWhile_cons_of_pos (by decide)]
    cases m with
    | zero => simp
    | succ k =>
      rw [List.replicate_succ, List.dropWhile_cons_of_neg (by decide)]
      rw [← List.replicate_succ, List.reverse_replicate]

/-- One `readlines` step at a newline. -/
theorem readlinesGo_cons_newline (cur b : List Char) :
    readlinesGo cur ('\n' :: b) = (cur.reverse ++ ['\n']) :: readlinesGo [] b := by
  conv_lhs => unfold readlinesGo
  simp

/-- One `readlines` step at an ordinary character. -/
theorem readlinesGo_cons_other (cur b : List Char) (x : Char) (h : x ≠ '\n') :
    readlinesGo cur (x :: b) = readlinesGo (x :: cur) b := by
  conv_lhs => unfold readlinesGo
  rw [if_neg h]

/-- `readlines` splits off a newline-free first line. -/
theorem readlinesGo_append (a : List Char) :
    '\n' ∉ a → ∀ (cur b : List Char),
      readlinesGo cur (a ++ '\n' :: b) = ((cur.reverse ++ a) ++ ['\n']) :: readlinesGo [] b := by
  induction a with
  | nil =>
    intro _ cur b
    rw [List.nil_append, readlinesGo_cons_newline]
    simp
  | cons x a ih =>
    intro hx cur b
    have hxn : x ≠ '\n' := by intro h; exact hx (by simp [h])
    have ha : '\n' ∉ a := fun h => hx (by simp [h])
    rw [List.cons_append, readlinesGo_cons_other cur (a ++ '\n' :: b) x hxn,
      ih ha (x :: cur) b]
    simp

/-- Top-level form of `readlinesGo_append`. -/
theorem readlinesChars_append (a b : List Char) (h : '\n' ∉ a) :
    readlinesChars (a ++ '\n' :: b) = (a ++ ['\n']) :: readlinesChars b := by
  unfold readlinesChars
  rw [readlinesGo_append a h [] b]
  simp

/-- `splitOnChar` never returns the empty list. -/
theorem splitOnChar_ne_nil (sep : Char) (l : List Char) : splitOnChar sep l ≠ [] := by
  cases l with
  | nil => simp [splitOnChar]
  | cons c cs =>
    unfold splitOnChar
    split
    · simp
    · split <;> simp

/-- The first token of a split starting at a non-separator character starts
with that character. -/
theorem splitOnChar_cons_head (sep c : Char) (l : List Char) (h : c ≠ sep) :
    ∃ tk ts, splitOnChar sep (c :: l) = (c :: tk) :: ts := by
  unfold splitOnChar
  rw [if_neg h]
  cases hs : splitOnChar sep l with
  | nil => exact absurd hs (splitOnChar_ne_nil sep l)
  | cons t ts => exact ⟨t, ts, rfl⟩

/-- The digit character of any residue is a digit. -/
theorem digitChar10_mem (n : Nat) : digitChar10 n ∈ digitList := by
  unfold digitChar10 digitList
  split <;> simp

/-- Every character produced by the digit printer is a digit (or came from
the accumulator). -/
theorem natToCharsGo_digits (fuel : Nat) :
    ∀ (n : Nat) (acc : List Char), (∀ c ∈ acc, c ∈ digitList) →
      ∀ c ∈ natToCharsGo fuel n acc, c ∈ digitList := by
  induction fuel with
  | zero => intro n acc hacc c hc; exact hacc c hc
  | succ fuel ih =>
    intro n acc hacc c hc
    unfold natToCharsGo at hc
    split at hc
    · rcases List.mem_cons.mp hc with h | h
      · subst h; exact digitChar10_mem n
      · exact hacc c h
    · refine ih (n / 10) _ ?_ c hc
      intro c' hc'
      rcases List.mem_cons.mp hc' with h | h
      · subst h; exact digitChar10_mem _
      · exact hacc c' h

/-- Every character of a printed number is a digit. -/
theorem natToChars_digits (n : Nat) : ∀ c ∈ natToChars n, c ∈ digitList :=
  natToCharsGo_digits (n + 1) n [] (by simp)

/-- The digit printer never discards its accumulator. -/
theorem natToCharsGo_ne_nil (fuel : Nat) :
    ∀ (n : Nat) (acc : List Char), acc ≠ [] → natToCharsGo fuel n acc ≠ [] := by
  induction fuel with
  | zero => intro n acc hacc; exact hacc
  | succ fuel ih =>
    intro n acc hacc
    unfold natToCharsGo
    split
    · simp
    · exact ih (n / 10) _ (by simp)

/-- A printed number is never empty. -/
theorem natToChars_ne_nil (n : Nat) : natToChars n ≠ [] := by
  unfold natToChars natToCharsGo
  split
  · simp
  · exact natToCharsGo_ne_nil n (n / 10) _ (by simp)

/-- A four-padded number starts with a digit. -/
theorem pad4_head (n : Nat) : ∃ c t, pad4 n = c :: t ∧ c ∈ digitList := by
  have hnat : ∃ c t, natToChars n = c :: t ∧ c ∈ digitList := by
    cases h : natToChars n with
    | nil => exact absurd h (natToChars_ne_nil n)
    | cons c t => exact ⟨c, t, rfl, natToChars_digits n c (by simp [h])⟩
  unfold pad4
  split
  · exact ⟨'0', _, rfl, by decide⟩
  · split
    · exact ⟨'0', _, rfl, by decide⟩
    · split
      · exact ⟨'0', _, rfl, by decide⟩
      · exact hnat

/-- Every character of a four-padded number is a digit. -/
theorem pad4_digits (n : Nat) : ∀ c ∈ pad4 n, c ∈ digitList := by
  unfold pad4
  split
  · intro c hc
    rcases hc with _ | ⟨_, _ | ⟨_, _ | ⟨_, h⟩⟩⟩
    · decide
    · decide
    · decide
    · exact natToChars_digits n c (by assumption)
  · split
    · intro c hc
      rcases hc with _ | ⟨_, _ | ⟨_, h⟩⟩
      · decide
      · decide
      · exact natToChars_digits n c (by assumption)
    · split
      · intro c hc
        rcases hc with _ | ⟨_, h⟩
        · decide
        · exact natToChars_digits n c (by assumption)
      · exact natToChars_digits n

/-- Every character of a two-padded number is a digit. -/
theorem pad2_digits (n : Nat) : ∀ c ∈ pad2 n, c ∈ digitList := by
  unfold pad2
  split
  · intro c hc
    rcases hc with _ | ⟨_, h⟩
    · decide
    · exact natToChars_digits n c (by assumption)
  · exact natToChars_digits n

/-- Unfolding of the printed datetime through the calendar conversion. -/
theorem strDatetimeChars_eq (t : Int) (y m d : Nat)
    (h : civilFromDays (t.toNat / 86400) = (y, m, d)) :
    strDatetimeChars t =
      pad4 y ++ ('-' :: (pad2 m ++ ('-' :: (pad2 d ++ (' ' :: (pad2 (t.toNat % 86400 / 3600) ++
        (':' :: (pad2 (t.toNat % 86400 % 3600 / 60) ++
          (':' :: pad2 (t.toNat % 86400 % 60)))))))))) := by
  unfold strDatetimeChars
  rw [h]

/-- Every character of a printed datetime is a digit or one of the three
separators. -/
theorem strDatetime_chars_mem (t : Int) :
    ∀ c ∈ strDatetimeChars t, c ∈ digitList ∨ c = '-' ∨ c = ' ' ∨ c = ':' := by
  intro c hc
  rcases hciv : civilFromDays (t.toNat / 86400) with ⟨y, m, d⟩
  rw [strDatetimeChars_eq t y m d hciv] at hc
  rcases List.mem_append.mp hc with h | h
  · exact Or.inl (pad4_digits y c h)
  rcases List.mem_cons.mp h with h | h
  · exact Or.inr (Or.inl h)
  rcases List.mem_append.mp h with h | h
  · exact Or.inl (pad2_digits m c h)
  rcases List.mem_cons.mp h with h | h
  · exact Or.inr (Or.inl h)
  rcases List.mem_append.mp h with h | h
  · exact Or.inl (pad2_digits d c h)
  rcases List.mem_cons.mp h with h | h
  · exact Or.inr (Or.inr (Or.inl h))
  rcases List.mem_append.mp h with h | h
  · exact Or.inl (pad2_digits _ c h)
  rcases List.mem_cons.mp h with h | h
  · exact Or.inr (Or.inr (Or.inr h))
  rcases List.mem_append.mp h with h | h
  · exact Or.inl (pad2_digits _ c h)
  rcases List.mem_cons.mp h with h | h
  · exact Or.inr (Or.inr (Or.inr h))
  exact Or.inl (pad2_digits _ c h)

/-- A printed datetime starts with a digit. -/
theorem strDatetime_head (t : Int) :
    ∃ c tl, strDatetimeChars t = c :: tl ∧ c ∈ digitList := by
  rcases hciv : civilFromDays (t.toNat / 86400) with ⟨y, m, d⟩
  rw [strDatetimeChars_eq t y m d hciv]
  obtain ⟨c, tp, hp, hd⟩ := pad4_head y
  rw [hp]
  exact ⟨c, _, List.cons_append c tp _, hd⟩

/-- Facts about digit characters needed below: a digit is not whitespace,
not a newline, not a separator and not the head of a recognised attribute
token. -/
theorem digit_props (c : Char) (h : c ∈ digitList) :
    isPySpace c = false ∧ c ≠ '\n' ∧ c ≠ '@' ∧ c ≠ 'i' ∧ c ≠ 'n' ∧ c ≠ ' ' := by
  unfold digitList at h
  rcases h with _ | ⟨_, _ | ⟨_, _ | ⟨_, _ | ⟨_, _ | ⟨_, _ | ⟨_, _ | ⟨_, _ | ⟨_, _ |
    ⟨_, _ | ⟨_, h⟩⟩⟩⟩⟩⟩⟩⟩⟩⟩ <;> first | decide | cases h

/-- The header block always starts with the rule line, then the metadata
line, each terminated by a newline. -/
theorem entryHeaderChars_shape (e : Entry) (hw : Nat) :
    ∃ tail0, entryHeaderChars e hw =
      List.replicate hw '=' ++ '\n' :: (entryMetaChars e hw ++ '\n' :: tail0) := by
  unfold entryHeaderChars
  by_cases htags : e.tags ≠ []
  · rw [if_pos htags]
    exact ⟨centerChars e.title.data hw ++ '\n' ::
      centerChars (joinSep ' ' (e.tags.map (fun t => '@' :: t.data))) hw, rfl⟩
  · rw [if_neg htags]
    exact ⟨centerChars e.title.data hw, rfl⟩

/-- Any successful render is the header block possibly followed by a blank
line and the body lines: in particular it starts with the rule line and the
metadata line. -/
theorem format_ok_data (e : Entry) (wrapCol : Int) (rendered : String)
    (hr : Entry.format e wrapCol = .ok rendered) :
    ∃ restC, rendered.data =
      List.replicate wrapCol.natAbs '=' ++ '\n' ::
        (entryMetaChars e wrapCol.natAbs ++ '\n' :: restC) := by
  obtain ⟨tail0, hshape⟩ := entryHeaderChars_shape e wrapCol.natAbs
  unfold Entry.format at hr
  split at hr
  · -- body = none
    injection hr with h
    exact ⟨tail0, by rw [← h, ← hshape]; rfl⟩
  · rename_i b hbody
    by_cases hb : b = ""
    · rw [if_pos hb] at hr
      injection hr with h
      exact ⟨tail0, by rw [← h, ← hshape]; rfl⟩
    · rw [if_neg hb] at hr
      cases hfb : format_body b (if !e.wrap then -1 else wrapCol) with
      | error err =>
        rw [hfb] at hr
        exact absurd hr (by simp [Bind.bind, Except.bind])
      | ok bodyLines =>
        rw [hfb] at hr
        simp only [Bind.bind, Except.bind] at hr
        injection hr with h
        refine ⟨tail0 ++ '\n' :: '\n' ::
          (bodyLines.map (fun l => l.data ++ ['\n'])).flatten, ?_⟩
        rw [← h]
        show entryHeaderChars e wrapCol.natAbs ++ _ = _
        rw [hshape]
        simp [List.append_assoc]

/-- The attribute loop rejects a first token that starts with a character
that can head neither a tag marker nor a recognised flag. -/
theorem parseAttrs_first_invalid (c : Char) (t : List Char) (ts : List (List Char))
    (acc : List String × Bool × Bool)
    (hat : c ≠ '@') (hi : c ≠ 'i') (hn : c ≠ 'n') :
    parseAttrs ((c :: t) :: ts) acc =
      .error (.parseError ("unknown attribute " ++ ofChars (c :: t))) := by
  obtain ⟨tags, imm, wr⟩ := acc
  unfold parseAttrs
  split
  · rename_i t' heq
    injection heq with h1 _
    exact absurd h1 hat
  · rw [if_neg ?_, if_neg ?_]
    · intro h
      rw [show ("nowrap".data) = 'n' :: "owrap".data from rfl] at h
      injection h with h1 _
      exact hn h1
    · intro h
      rw [show ("immortal".data) = 'i' :: "mmortal".data from rfl] at h
      injection h with h1 _
      exact hi h1

set_option maxHeartbeats 1000000 in
/-- C3 (amended): rendering is not an inverse of parsing.  For any entry
whose filename has a valid timestamp prefix (as every parsed entry does) and
any wrap column with positive header width, re-parsing the rendered text
fails with a `ParseError`: the render's first line is the `=` rule and its
metadata line is not a valid attribute line. -/
theorem parse_rendered_entry_fails (e : Entry) (wrapCol : Int) (rendered : String) (t0 : Int)
    (hst : strptime timeFormatDirs ((splitOnChar '-' e.fname.data).headD []) = some t0)
    (hcol : 1 ≤ wrapCol.natAbs)
    (hnl : '\n' ∉ e.fname.data)
    (hr : Entry.format e wrapCol = .ok rendered) :
    ∃ msg, Entry.parse e.fname rendered false = .error (.parseError msg) := by
  obtain ⟨restC, hdata⟩ := format_ok_data e wrapCol rendered hr
  obtain ⟨c0, tl, hhead, hc0⟩ := strDatetime_head e.time
  obtain ⟨hsp, hnl0, hat, hi, hn, hspace⟩ := digit_props c0 hc0
  obtain ⟨mtl, hmeta⟩ : ∃ mtl, entryMetaChars e wrapCol.natAbs = c0 :: mtl := by
    unfold entryMetaChars
    rw [hhead]
    refine ⟨(tl ++ List.replicate (wrapCol.natAbs - (c0 :: tl).length - e.fname.data.length) ' ')
      ++ e.fname.data, ?_⟩
    simp [List.cons_append]
  have hnlmeta : '\n' ∉ entryMetaChars e wrapCol.natAbs := by
    unfold entryMetaChars
    intro h
    rcases List.mem_append.mp h with h' | h'
    · rcases List.mem_append.mp h' with h2 | h2
      · rcases strDatetime_chars_mem e.time '\n' h2 with hd | hd | hd | hd
        · simp [digitList] at hd
        · exact absurd hd (by decide)
        · exact absurd hd (by decide)
        · exact absurd hd (by decide)
      · have := List.eq_of_mem_replicate h2
        exact absurd this (by decide)
    · exact hnl h'
  have hnlrule : '\n' ∉ List.replicate wrapCol.natAbs '=' := by
    intro h
    have := List.eq_of_mem_replicate h
    exact absurd this (by decide)
  have hlines : readlinesChars rendered.data =
      (List.replicate wrapCol.natAbs '=' ++ ['\n']) ::
        (entryMetaChars e wrapCol.natAbs ++ ['\n']) :: readlinesChars restC := by
    rw [hdata, readlinesChars_append _ _ hnlrule, readlinesChars_append _ _ hnlmeta]
  have htitle : stripChars (List.replicate wrapCol.natAbs '=' ++ ['\n']) =
      List.replicate wrapCol.natAbs '=' := stripChars_rule _
  have htne : List.replicate wrapCol.natAbs '=' ≠ [] := by
    intro h
    rw [List.replicate_eq_nil_iff] at h
    omega
  have hattr : stripChars (entryMetaChars e wrapCol.natAbs ++ ['\n']) =
      c0 :: rstripChars (mtl ++ ['\n']) := by
    rw [hmeta, List.cons_append]
    exact stripChars_cons c0 _ hsp
  obtain ⟨tk, ts, hsplit⟩ :=
    splitOnChar_cons_head ' ' c0 (rstripChars (mtl ++ ['\n'])) hspace
  refine ⟨"unknown attribute " ++ ofChars (c0 :: tk), ?_⟩
  unfold Entry.parse
  simp only [hst, hlines, htitle, htne, if_neg htne, hattr, hsplit,
    parseAttrs_first_invalid c0 tk ts _ hat hi hn, Bind.bind, Except.bind,
    ne_eq, List.cons_ne_nil, not_false_eq_true, if_true, ite_true, ite_false,
    reduceCtorEq]

/-- Counterexample for C3 as stated: a concrete valid entry text whose
render, re-parsed, is not the original entry but a `ParseError` (the
metadata line is not a valid attribute line). -/
theorem parse_format_roundtrip_counterexample :
    Entry.parse "20200101_000000-x" "Hello\n\nworld" false = .ok c3Entry ∧
      Entry.format c3Entry 78 = .ok c3Rendered ∧
      Entry.parse "20200101_000000-x" c3Rendered false =
        .error (.parseError "unknown attribute 2020-01-01") := by
  refine ⟨rfl, rfl, rfl⟩

/-- Witness for C3 (amended) on the concrete entry `c3Entry`. -/
theorem parse_rendered_entry_fails_witness :
    ∃ msg, Entry.parse c3Entry.fname c3Rendered false = .error (.parseError msg) :=
  parse_rendered_entry_fails c3Entry 78 c3Rendered 63739872000
    (by decide) (by decide) (by decide) rfl
